import Mathlib

/-!
Verification development for the hsh shell (src/main.rs).

Two embeddings are developed:

1. The dispatch pipeline (execute_command, handle_builtin, check_auto_sudo,
   ensure_executable, the alias/source/export/extension stages, and the main
   loop's history recording).  Shell-level strings are modelled as `List Char`
   (Rust `String`s are sequences of chars; every slicing the pipeline performs
   happens at ASCII boundaries, so char-level granularity is exact there).
   External effects (shlex tokenization, the filesystem, child processes,
   environment variables, stdin) are oracles collected in `SysEnv`, and the
   function returns the observable outcome: exit status, resulting session
   state, and the ordered list of side effects.

2. The lexical classifier ShellHelper::highlight.  The Rust code indexes the
   line BYTE by byte (`line.as_bytes()[i] as char`) and slices the line at
   those byte offsets, so this model works on the UTF-8 byte sequence
   (`List Nat`) and reproduces Rust's char-boundary panic behaviour exactly:
   `&line[a..b]` panics when `a` or `b` is not a character boundary.
-/

/-! ## Part 1: the dispatch pipeline -/

/-- Shell-level strings, modelled as lists of characters. -/
abbrev Str := List Char

/-- Character list of a string literal. -/
def S (s : String) : Str := s.data

/-- Unicode White_Space, the predicate behind Rust's char::is_whitespace:
code points 0x09-0x0D, 0x20, 0x85, 0xA0, 0x1680, 0x2000-0x200A, 0x2028,
0x2029, 0x202F, 0x205F, 0x3000. -/
def rustIsWs (c : Char) : Bool :=
  c.toNat == 0x09 || c.toNat == 0x0A || c.toNat == 0x0B || c.toNat == 0x0C ||
  c.toNat == 0x0D || c.toNat == 0x20 || c.toNat == 0x85 || c.toNat == 0xA0 ||
  c.toNat == 0x1680 || (0x2000 ≤ c.toNat && c.toNat ≤ 0x200A) ||
  c.toNat == 0x2028 || c.toNat == 0x2029 || c.toNat == 0x202F ||
  c.toNat == 0x205F || c.toNat == 0x3000

/-- Rust str::trim: remove leading and trailing whitespace. -/
def rustTrim (s : Str) : Str :=
  ((s.dropWhile rustIsWs).reverse.dropWhile rustIsWs).reverse

/-- Rust str::starts_with for a string pattern. -/
def strStarts : Str → Str → Bool
  | _, [] => true
  | [], _ :: _ => false
  | c :: s, p :: ps => c == p && strStarts s ps

/-- Rust str::ends_with for a string pattern. -/
def strEnds (s pat : Str) : Bool := strStarts s.reverse pat.reverse

/-- expand_tilde from main.rs (lines 268-278): replace a leading '~' with the
value of HOME when that variable is set. -/
def expand_tilde (home : Option Str) (s : Str) : Str :=
  if strStarts s (S "~") then
    match home with
    | some h => h ++ s.drop 1
    | none => s
  else s

/-- Permission view of the filesystem: a path maps to the mode bits of an
existing file, or to none when metadata fails (no such file). -/
def FsPerm : Type := Str → Option Nat

/-- ensure_executable from main.rs (lines 319-330): if metadata succeeds and
no execute bit (0o111) is set, set the execute bits.  A failure of
set_permissions only prints a message in the Rust code and is not modelled. -/
def ensure_executable (fs : FsPerm) (file_path : Str) : FsPerm := fun q =>
  if q = file_path then
    match fs file_path with
    | none => none
    | some m => if m &&& 0o111 == 0 then some (m ||| 0o111) else some m
  else fs q

/-- Session state threaded through the loop: the current working directory
(env::current_dir), the previous directory for `cd -`, and the history. -/
structure ShellSt where
  cwd : Str
  prevDir : Option Str
  history : List Str
deriving DecidableEq

/-- Outcome of handle_builtin: not a builtin, process exit, or handled with a
new state and the lines printed. -/
inductive BuiltinOut where
  | notBuiltin
  | exitShell
  | handled (st : ShellSt) (msgs : List Str)
deriving DecidableEq

/-- Common tail of the cd builtin (main.rs lines 347-352): read the current
directory, attempt the change; on success record the directory being left in
prevDir, on failure print the error.  st is the state after the `-`-case
take() has already been applied. -/
def cdGo (dirOk : Str → Bool) (st : ShellSt) (dirStr target : Str) : BuiltinOut :=
  if dirOk target then
    .handled { st with cwd := target, prevDir := some st.cwd } []
  else
    .handled st [S "cd: no such file or directory: " ++ dirStr]

/-- The cd branch of handle_builtin (main.rs lines 333-353).  dirStr is the
already-trimmed remainder after the "cd" prefix. -/
def handleCd (dirOk : Str → Bool) (home : Option Str) (st : ShellSt) (dirStr : Str) :
    BuiltinOut :=
  if dirStr = [] then
    cdGo dirOk st dirStr (home.getD (S "/"))
  else if dirStr = S "-" then
    match st.prevDir with
    | some pd => cdGo dirOk { st with prevDir := none } dirStr pd
    | none => .handled st [S "No previous directory"]
  else
    cdGo dirOk st dirStr (expand_tilde home dirStr)

/-- Decimal rendering of a number, for the history listing. -/
def natStr (n : Nat) : Str := (Nat.repr n).data

/-- Output of the history builtin (main.rs lines 357-362): entries
most-recent-first, numbered from 1. -/
def historyMsgs (h : List Str) : List Str :=
  (h.reverse.enum).map (fun p => natStr (p.1 + 1) ++ S ": " ++ p.2)

/-- Output of hsh-help (main.rs lines 363-380). -/
def helpMsgs : List Str :=
  [S "hsh - HackerOS Shell",
   S "Built-ins:",
   S " exit - exit the shell",
   S " history - show command history",
   S " hsh-help - show this help",
   S " cd [dir] - change directory",
   S "Features:",
   S " Auto-chmod for .sh files",
   S " Auto hl run for .hl files",
   S " Git branch in prompt",
   S " Aliases from ~/.hshrc",
   S " Smart suggestions",
   S " Syntax highlighting",
   S " Auto-sudo for system files",
   S " Configurable prompt in ~/.hshrc [prompt] section"]

/-- handle_builtin from main.rs (lines 331-384).  The cd builtin is matched
by PREFIX on the trimmed command; exit, history and hsh-help by exact match. -/
def handle_builtin (dirOk : Str → Bool) (home : Option Str) (st : ShellSt) (cmd : Str) :
    BuiltinOut :=
  let trimmed := rustTrim cmd
  if strStarts trimmed (S "cd") then
    handleCd dirOk home st (rustTrim (trimmed.drop 2))
  else if trimmed = S "exit" then .exitShell
  else if trimmed = S "history" then .handled st (historyMsgs st.history)
  else if trimmed = S "hsh-help" then .handled st helpMsgs
  else .notBuiltin

/-- Observable side effects of one dispatch, in program order. -/
inductive Effect where
  | msg (s : Str)
  | setEnv (name value : Str)
  | chmodReq (path : Str)
  | spawned (cmdline : Str)
deriving DecidableEq

/-- Result of execute_command: io::Error propagation, process exit (the exit
builtin), or normal completion with status, state and effects.  fuelOut can
only arise when the explicit source-recursion fuel is exceeded; the Rust code
recurses unboundedly there. -/
inductive ExecResult where
  | fuelOut
  | ioError (effects : List Effect)
  | exited (effects : List Effect)
  | done (status : Int) (st : ShellSt) (effects : List Effect)
deriving DecidableEq

/-- Oracles for the externals the pipeline consults: shlex::split, the
filesystem, HOME, uid, the stdin answer at the sudo prompt, and sh -c
delegation.  spawn returns none for a spawn/wait Err, some c for a finished
child with status.code() = c (c = none when no code is available). -/
structure SysEnv where
  split : Str → Option (List Str)
  readFile : Str → Option Str
  dirOk : Str → Bool
  home : Option Str
  isRoot : Bool
  sudoAnswer : Str
  spawn : Str → Option (Option Int)

/-- Rust str::to_lowercase, restricted to the ASCII case needed here. -/
def toLowerStr (s : Str) : Str := s.map Char.toLower

/-- check_auto_sudo from main.rs (lines 388-409): when the tokenized command
is an editor on a protected path and the user is not root, prompt; an answer
of "y" (trimmed, lowercased) rewrites the line to "sudo " ++ the tokens
joined by single spaces; everything else leaves the trimmed input as is. -/
def check_auto_sudo (E : SysEnv) (input : Str) : Str × List Effect :=
  let newInput := rustTrim input
  match E.split newInput with
  | none => (newInput, [])
  | some [] => (newInput, [])
  | some (cmd :: rest) =>
    match rest with
    | [] => (newInput, [])
    | file :: _ =>
      if (cmd = S "vi" ∨ cmd = S "vim" ∨ cmd = S "nano")
          ∧ (strStarts file (S "/etc/") ∨ strStarts file (S "/usr/bin/"))
          ∧ E.isRoot = false then
        let pr := Effect.msg (S "This file requires root privileges. Use sudo? [y/n] ")
        if toLowerStr (rustTrim E.sudoAnswer) = S "y" then
          (S "sudo " ++ List.intercalate (S " ") (cmd :: rest), [pr])
        else (newInput, [pr])
      else (newInput, [])

/-- First-match association lookup (the alias table: alias name to
replacement text). -/
def lookupA : List (Str × Str) → Str → Option Str
  | [], _ => none
  | (k, v) :: r, s => if k = s then some v else lookupA r s

/-- Alias-expansion stage of execute_command (main.rs lines 417-423):
shlex-split the trimmed line (a failed split yields no tokens via
unwrap_or_default); when the FIRST token is an alias key, the line becomes
the replacement text, a space, and the remaining tokens joined by spaces. -/
def aliasExpand (split : Str → Option (List Str)) (aliases : List (Str × Str))
    (trimmed : Str) : Str :=
  match (split trimmed).getD [] with
  | [] => trimmed
  | p :: ps =>
    match lookupA aliases p with
    | some v => v ++ S " " ++ List.intercalate (S " ") ps
    | none => trimmed

/-- Split at the first '=' (str::find): name is everything before it, value
everything after it; none when there is no '='. -/
def splitAtEq (s : Str) : Option (Str × Str) :=
  match s.dropWhile (fun c => !(c == '=')) with
  | [] => none
  | _ :: after => some (s.takeWhile (fun c => !(c == '=')), after)

/-- Extension-based rewriting stage of execute_command (main.rs lines
452-456): a line ending in ".sh" is chmodded AS A WHOLE (the entire line is
the path handed to ensure_executable) and runs unchanged; otherwise a line
ending in ".hl" is prefixed with "hl run ". -/
def extensionStage (t : Str) : Str × List Effect :=
  if strEnds t (S ".sh") then (t, [Effect.chmodReq t])
  else if strEnds t (S ".hl") then (S "hl run " ++ t, [])
  else (t, [])

/-- Delegation tail of execute_command (main.rs lines 452-464): extension
rewriting, then sh -c on the final line; a missing exit code maps to 1. -/
def execTail (E : SysEnv) (st : ShellSt) (effs : List Effect) (t : Str) : ExecResult :=
  let p := extensionStage t
  match E.spawn p.1 with
  | none => .ioError (effs ++ p.2)
  | some c => .done (c.getD 1) st (effs ++ p.2 ++ [Effect.spawned p.1])

/-- Split a string at newline characters (every piece, including a trailing
empty one). -/
def splitOnNl : Str → List Str
  | [] => [[]]
  | c :: t =>
    if c = '\n' then [] :: splitOnNl t
    else
      match splitOnNl t with
      | [] => [[c]]
      | h :: r => (c :: h) :: r

/-- Rust str::lines: split at '\n', strip a '\r' left at the end of each
piece that was followed by '\n', and drop the final empty piece when the
string ends with a newline. -/
def rustLines (s : Str) : List Str :=
  let ps := splitOnNl s
  let core := ps.dropLast.map (fun l => if l.getLast? = some '\r' then l.dropLast else l)
  match ps.getLast? with
  | some [] => core
  | some lst => core ++ [lst]
  | none => core

/-- The source-file loop of execute_command (main.rs lines 429-435): dispatch
every line whose trim is non-empty and does not start with '!', threading
state, accumulating effects, and keeping the status of the last dispatched
line (0 when none); Err and exit short-circuit. -/
def runLinesWith (exec1 : Str → ShellSt → ExecResult) :
    List Str → ShellSt → Int → List Effect → ExecResult
  | [], st, last, effs => .done last st effs
  | l :: ls, st, last, effs =>
    let t := rustTrim l
    if t ≠ [] ∧ strStarts t (S "!") = false then
      match exec1 l st with
      | .done c st' effs' => runLinesWith exec1 ls st' c (effs ++ effs')
      | .ioError effs' => .ioError (effs ++ effs')
      | .exited effs' => .exited (effs ++ effs')
      | .fuelOut => .fuelOut
    else runLinesWith exec1 ls st last effs

/-- One dispatch of execute_command (main.rs lines 410-465); recur is the
recursive dispatch used for the lines of a sourced file. -/
def execStep (E : SysEnv) (aliases : List (Str × Str))
    (recur : Str → ShellSt → ExecResult) (input : Str) (st : ShellSt) : ExecResult :=
  let trimmed := aliasExpand E.split aliases (rustTrim input)
  if strStarts trimmed (S "source ") ∨ strStarts trimmed (S ". ") then
    let offset : Nat := if strStarts trimmed (S "source ") then 7 else 2
    let filePath := expand_tilde E.home (rustTrim (trimmed.drop offset))
    match E.readFile filePath with
    | none => .ioError []
    | some contents => runLinesWith recur (rustLines contents) st 0 []
  else
    match handle_builtin E.dirOk E.home st trimmed with
    | .exitShell => .exited []
    | .handled st' msgs => .done 0 st' (msgs.map Effect.msg)
    | .notBuiltin =>
      let s2 := check_auto_sudo E trimmed
      if strStarts s2.1 (S "export ") then
        match splitAtEq (rustTrim (s2.1.drop 7)) with
        | some nv => .done 0 st (s2.2 ++ [Effect.setEnv (rustTrim nv.1) (rustTrim nv.2)])
        | none => execTail E st s2.2 s2.1
      else execTail E st s2.2 s2.1

/-- execute_command from main.rs with explicit fuel bounding the depth of
source-recursion (the Rust function recurses unboundedly; fuelOut arises only
when the given depth is exceeded, never in any theorem below). -/
def execute_command (E : SysEnv) (aliases : List (Str × Str)) :
    Nat → Str → ShellSt → ExecResult
  | 0, _, _ => .fuelOut
  | fuel+1, input, st =>
    execStep E aliases (fun l s => execute_command E aliases fuel l s) input st

/-- Modelled from rustyline History::add as configured in main.rs: blank
lines are never stored; with history_ignore_space(true) (main.rs line 477) a
line whose first character is whitespace is never stored; with rustyline's
default duplicate policy a line equal to the most recent entry is not stored
again; the capacity bound maxLen evicts the oldest entry.  The list is
oldest-first. -/
def add_history_entry (maxLen : Nat) (hist : List Str) (line : Str) : List Str :=
  if maxLen = 0 then hist
  else
    match line with
    | [] => hist
    | c :: _ =>
      if rustIsWs c then hist
      else if hist.getLast? = some line then hist
      else if hist.length = maxLen then hist.tail ++ [line] else hist ++ [line]

/-- History recording in the main read loop (main.rs lines 533-537): when the
trimmed line is non-empty, hand the RAW line to add_history_entry. -/
def mainHistoryStep (maxLen : Nat) (hist : List Str) (line : Str) : List Str :=
  if rustTrim line = [] then hist else add_history_entry maxLen hist line

/-! ## Part 2: the lexical classifier (ShellHelper::highlight) -/

/-- Refined classification of a Word span (main.rs lines 213-225). -/
inductive WordKind where
  | knownCommand
  | unknownCommand
  | optionFlag
  | existingPath
  | plainWord
deriving DecidableEq

/-- Span categories produced by the classifier.  op2 is a two-character
operator (&& or ||); op1 a one-character operator (; | > < or a lone &),
whose rendering differs per character but whose token structure does not. -/
inductive SpanCat where
  | warning
  | whitespace
  | dquoted
  | squoted
  | varRef
  | op2
  | op1
  | word (cls : WordKind)
deriving DecidableEq

/-- A classified span: the half-open byte range [start, stop) of the line. -/
structure Span where
  start : Nat
  stop : Nat
  cat : SpanCat
deriving DecidableEq

/-- Result of the classifier: a clean span list, a Rust panic (a slice index
fell inside a multi-byte character), or fuel exhaustion (unreachable from
highlight, which supplies length+1 fuel while every iteration advances the
index by at least one). -/
inductive HRes where
  | panicked
  | fuelOut
  | ok (spans : List Span)
deriving DecidableEq

/-- char::is_whitespace applied to a byte cast to a char (code points 0-255):
0x09-0x0D, 0x20, 0x85, 0xA0. -/
def byteIsWhitespace (b : Nat) : Bool :=
  b == 0x09 || b == 0x0A || b == 0x0B || b == 0x0C || b == 0x0D ||
  b == 0x20 || b == 0x85 || b == 0xA0

/-- char::is_alphanumeric applied to a byte cast to a char (code points
0-255): ASCII digits and letters; ordinal indicators 0xAA and 0xBA; micro
sign 0xB5; superscripts 0xB2, 0xB3, 0xB9; vulgar fractions 0xBC-0xBE; and
the Latin-1 letters 0xC0-0xFF without the two signs 0xD7 and 0xF7. -/
def byteIsAlnum (b : Nat) : Bool :=
  (0x30 ≤ b && b ≤ 0x39) || (0x41 ≤ b && b ≤ 0x5A) || (0x61 ≤ b && b ≤ 0x7A) ||
  b == 0xAA || b == 0xB2 || b == 0xB3 || b == 0xB5 || b == 0xB9 || b == 0xBA ||
  b == 0xBC || b == 0xBD || b == 0xBE ||
  (0xC0 ≤ b && b ≤ 0xFF && !(b == 0xD7) && !(b == 0xF7))

/-- The operator characters of main.rs line 170: & | ; > <. -/
def isOpByte (b : Nat) : Bool :=
  b == 0x26 || b == 0x7C || b == 0x3B || b == 0x3E || b == 0x3C

/-- The word-terminating characters of main.rs line 207: whitespace and
the characters of the string of operators, quotes and dollar. -/
def isWordBreak (b : Nat) : Bool :=
  byteIsWhitespace b || isOpByte b || b == 0x22 || b == 0x27 || b == 0x24

/-- Rust str::is_char_boundary: position 0 and the length are boundaries; an
interior position is one exactly when its byte is not a UTF-8 continuation
byte (a position past the end is not a boundary). -/
def isCharBoundary (line : List Nat) (p : Nat) : Bool :=
  p == 0 || p == line.length ||
    (decide (p < line.length) && !((line.getD p 0) &&& 0xC0 == 0x80))

/-- Both endpoints of &line[a..b] are char boundaries (otherwise Rust
panics). -/
def sliceOk (line : List Nat) (a b : Nat) : Bool :=
  isCharBoundary line a && isCharBoundary line b

/-- Length of the longest prefix satisfying p (the scan loops of highlight
advance by exactly this much). -/
def takeCount (p : Nat → Bool) (l : List Nat) : Nat := (l.takeWhile p).length

/-- Prepend a span to an ok result; pass panics and fuel exhaustion through. -/
def consSpan (s : Span) : HRes → HRes
  | .ok l => .ok (s :: l)
  | r => r

/-- Does pat occur as a contiguous byte subsequence (Rust str::contains on
the literal patterns, all ASCII)? -/
def byteStarts : List Nat → List Nat → Bool
  | _, [] => true
  | [], _ :: _ => false
  | c :: s, p :: ps => c == p && byteStarts s ps

/-- Substring containment at byte level. -/
def containsSeq : List Nat → List Nat → Bool
  | [], pat => byteStarts [] pat
  | c :: t, pat => byteStarts (c :: t) pat || containsSeq t pat

/-- UTF-8 bytes of an ASCII-only literal (for ASCII, code point = byte). -/
def B (s : String) : List Nat := s.data.map Char.toNat

/-- The dangerous literal substrings of main.rs line 116. -/
def dangerousPatterns : List (List Nat) :=
  [B "rm -rf /", B "rm -rf /*", B "dd if=/dev/zero of=/dev/sda", B "mkfs /dev/sda"]

/-- The scanning loop of ShellHelper::highlight (main.rs lines 120-229),
producing the classified spans instead of the colorized string: each
iteration of the Rust while loop appends exactly one span, wrapping the
slice the Rust code pushes.  Every slice is guarded by the same char-boundary
condition under which Rust's &line[a..b] succeeds; a violated guard is the
panic.  ce abstracts self.command_exists (PATH cache plus Path::exists);
pathish abstracts is_path_like(word) && Path::new(&expand_tilde(word)).exists()
(Unicode tables, HOME and the filesystem). -/
def highlightLoop (ce pathish : List Nat → Bool) (line : List Nat) :
    Nat → Nat → Bool → HRes
  | 0, _, _ => .fuelOut
  | fuel+1, i, cmdPos =>
    if i < line.length then
      let b := line.getD i 0
      if byteIsWhitespace b then
        consSpan ⟨i, i+1, .whitespace⟩ (highlightLoop ce pathish line fuel (i+1) cmdPos)
      else if b == 0x22 then
        let j0 := i + 1 + takeCount (fun x => !(x == 0x22)) (line.drop (i+1))
        let j := if j0 < line.length then j0 + 1 else j0
        if sliceOk line i j then
          consSpan ⟨i, j, .dquoted⟩ (highlightLoop ce pathish line fuel j false)
        else .panicked
      else if b == 0x27 then
        let j0 := i + 1 + takeCount (fun x => !(x == 0x27)) (line.drop (i+1))
        let j := if j0 < line.length then j0 + 1 else j0
        if sliceOk line i j then
          consSpan ⟨i, j, .squoted⟩ (highlightLoop ce pathish line fuel j false)
        else .panicked
      else if b == 0x24 then
        let j := i + 1 + takeCount (fun x => byteIsAlnum x || x == 0x5F) (line.drop (i+1))
        if sliceOk line i j then
          consSpan ⟨i, j, .varRef⟩ (highlightLoop ce pathish line fuel j false)
        else .panicked
      else if isOpByte b then
        if decide (i + 1 < line.length) &&
            ((b == 0x26 && line.getD (i+1) 0 == 0x26) ||
             (b == 0x7C && line.getD (i+1) 0 == 0x7C)) then
          if sliceOk line i (i+2) then
            consSpan ⟨i, i+2, .op2⟩ (highlightLoop ce pathish line fuel (i+2) true)
          else .panicked
        else
          if sliceOk line i (i+1) then
            consSpan ⟨i, i+1, .op1⟩ (highlightLoop ce pathish line fuel (i+1) true)
          else .panicked
      else
        let n := takeCount (fun x => !isWordBreak x) (line.drop i)
        let j := i + n
        if sliceOk line i j then
          let w := (line.drop i).take n
          let cls : WordKind :=
            if cmdPos then (if ce w then .knownCommand else .unknownCommand)
            else if w.headD 0 == 0x2D then .optionFlag
            else if pathish w then .existingPath
            else .plainWord
          consSpan ⟨i, j, .word cls⟩ (highlightLoop ce pathish line fuel j false)
        else .panicked
    else .ok []

/-- ShellHelper::highlight (main.rs lines 114-231) as a span classifier: one
whole-line warning span when a dangerous pattern occurs anywhere in the line,
otherwise the scan from position 0 in command position. -/
def highlight (ce pathish : List Nat → Bool) (line : List Nat) : HRes :=
  if dangerousPatterns.any (fun p => containsSeq line p) then
    .ok [⟨0, line.length, .warning⟩]
  else highlightLoop ce pathish line (line.length + 1) 0 true

/-! ## Helper lemmas -/

theorem dropWhile_ne_nil_of_mem {p : Char → Bool} {l : Str} {c : Char}
    (hc : c ∈ l) (hpc : p c = false) : l.dropWhile p ≠ [] := by
  induction l with
  | nil => cases hc
  | cons a t ih =>
    rw [List.dropWhile_cons]
    by_cases hpa : p a = true
    · simp only [hpa, if_true]
      rcases List.mem_cons.mp hc with h | h
      · subst h; rw [hpa] at hpc; cases hpc
      · exact ih h
    · simp [hpa]

theorem head?_dropWhile {p : Char → Bool} {l : Str} {c : Char}
    (h : (l.dropWhile p).head? = some c) : p c = false := by
  induction l with
  | nil => simp at h
  | cons a t ih =>
    rw [List.dropWhile_cons] at h
    by_cases hpa : p a = true
    · rw [if_pos hpa] at h; exact ih h
    · rw [if_neg hpa] at h
      simp only [List.head?_cons, Option.some.injEq] at h
      subst h
      simpa using hpa

theorem getLast?_dropWhile {p : Char → Bool} {l : Str}
    (h : l.dropWhile p ≠ []) : (l.dropWhile p).getLast? = l.getLast? := by
  induction l with
  | nil => simp at h
  | cons a t ih =>
    rw [List.dropWhile_cons] at h ⊢
    by_cases hpa : p a = true
    · rw [if_pos hpa] at h ⊢
      rw [ih h]
      cases t with
      | nil => simp [List.dropWhile] at h
      | cons b u => simp [List.getLast?_cons_cons]
    · rw [if_neg hpa]

theorem dropWhile_eq_self_of_head {p : Char → Bool} {l : Str}
    (h : ∀ c, l.head? = some c → p c = false) : l.dropWhile p = l := by
  cases l with
  | nil => rfl
  | cons a t => rw [List.dropWhile_cons, if_neg]; simp [h a rfl]

theorem rustTrim_idem (s : Str) : rustTrim (rustTrim s) = rustTrim s := by
  unfold rustTrim
  by_cases h0 : (((s.dropWhile rustIsWs).reverse.dropWhile rustIsWs)) = []
  · simp [h0]
  · have hfix : (((s.dropWhile rustIsWs).reverse.dropWhile rustIsWs).reverse).dropWhile rustIsWs
        = ((s.dropWhile rustIsWs).reverse.dropWhile rustIsWs).reverse := by
      apply dropWhile_eq_self_of_head
      intro c hc
      rw [List.head?_reverse] at hc
      rw [getLast?_dropWhile h0, List.getLast?_reverse] at hc
      exact head?_dropWhile hc
    rw [hfix, List.reverse_reverse, List.dropWhile_idempotent]

theorem rustTrim_ne_nil_of_head {c : Char} {rest : Str}
    (hc : rustIsWs c = false) : rustTrim (c :: rest) ≠ [] := by
  unfold rustTrim
  intro h
  have h1 : (c :: rest).dropWhile rustIsWs = c :: rest := by
    rw [List.dropWhile_cons, if_neg]; simp [hc]
  rw [h1] at h
  have h2 : ((c :: rest).reverse.dropWhile rustIsWs) = [] := by
    have := congrArg List.reverse h
    simpa using this
  exact dropWhile_ne_nil_of_mem (by simp : c ∈ (c :: rest).reverse) hc h2

theorem strStarts_iff {p s : Str} : strStarts s p = true ↔ p <+: s := by
  induction p generalizing s with
  | nil => simp [strStarts]
  | cons c ps ih =>
    cases s with
    | nil => simp [strStarts]
    | cons a t =>
      rw [strStarts, List.cons_prefix_cons]
      simp only [Bool.and_eq_true, beq_iff_eq]
      rw [ih]
      exact ⟨fun ⟨h1, h2⟩ => ⟨h1.symm, h2⟩, fun ⟨h1, h2⟩ => ⟨h1.symm, h2⟩⟩

theorem aliasExpand_nil (split : Str → Option (List Str)) (t : Str) :
    aliasExpand split [] t = t := by
  unfold aliasExpand
  cases (split t).getD [] with
  | nil => rfl
  | cons p ps => simp [lookupA]

theorem handleCd_handled (dirOk : Str → Bool) (home : Option Str) (st : ShellSt)
    (ds : Str) : ∃ st' msgs, handleCd dirOk home st ds = .handled st' msgs := by
  unfold handleCd cdGo
  repeat' split
  all_goals exact ⟨_, _, rfl⟩

theorem execute_command_succ (E : SysEnv) (A : List (Str × Str)) (n : Nat)
    (input : Str) (st : ShellSt) :
    execute_command E A (n+1) input st =
      execStep E A (fun l s => execute_command E A n l s) input st := rfl

theorem consSpan_ok {s : Span} {r : HRes} {spans : List Span}
    (h : consSpan s r = .ok spans) : ∃ rest, r = .ok rest ∧ spans = s :: rest := by
  cases r with
  | ok l =>
    refine ⟨l, rfl, ?_⟩
    simpa [consSpan] using h.symm
  | panicked => simp [consSpan] at h
  | fuelOut => simp [consSpan] at h

/-! ## Claim C1: the cd round trip -/

/-- A directory oracle admitting exactly /a and /b. -/
def cdOkAB : Str → Bool := fun s => s == S "/a" || s == S "/b"

/-- Claim C1, counterexample.  Starting in /a: `cd /b` then `cd -` does return
to /a, but the successful `cd -` re-sets prev_dir to the directory it left
(/b), so a second consecutive `cd -` does NOT print "No previous directory"
and does NOT leave the working directory unchanged: it prints nothing and
toggles back to /b. -/
theorem c1_counterexample :
    handle_builtin cdOkAB (some (S "/h")) ⟨S "/a", none, []⟩ (S "cd /b") =
      .handled ⟨S "/b", some (S "/a"), []⟩ [] ∧
    handle_builtin cdOkAB (some (S "/h")) ⟨S "/b", some (S "/a"), []⟩ (S "cd -") =
      .handled ⟨S "/a", some (S "/b"), []⟩ [] ∧
    handle_builtin cdOkAB (some (S "/h")) ⟨S "/a", some (S "/b"), []⟩ (S "cd -") =
      .handled ⟨S "/b", some (S "/a"), []⟩ [] ∧
    S "/b" ≠ S "/a" := by
  refine ⟨?_, ?_, ?_, ?_⟩ <;> decide

/-- Claim C1 (amended): `cd B` then `cd -` returns the working directory to A;
but prev_dir is re-set on every successful change, including `cd -` itself, so
a second consecutive `cd -` silently toggles back to B instead of reporting
"No previous directory"; that message occurs exactly when prev_dir is none. -/
theorem c1_amended (dirOk : Str → Bool) (home : Option Str) (A B : Str)
    (p0 : Option Str) (h : List Str)
    (hB : dirOk B = true) (hA : dirOk A = true)
    (hBne : B ≠ []) (hBdash : B ≠ S "-") (hBtilde : strStarts B (S "~") = false) :
    handleCd dirOk home ⟨A, p0, h⟩ B = .handled ⟨B, some A, h⟩ [] ∧
    handleCd dirOk home ⟨B, some A, h⟩ (S "-") = .handled ⟨A, some B, h⟩ [] ∧
    handleCd dirOk home ⟨A, some B, h⟩ (S "-") = .handled ⟨B, some A, h⟩ [] ∧
    (∀ st : ShellSt, st.prevDir = none →
      handleCd dirOk home st (S "-") = .handled st [S "No previous directory"]) := by
  have hexp : expand_tilde home B = B := by
    unfold expand_tilde
    rw [if_neg]
    simp [hBtilde]
  refine ⟨?_, ?_, ?_, ?_⟩
  · unfold handleCd
    rw [if_neg hBne, if_neg hBdash, hexp]
    unfold cdGo
    rw [if_pos hB]
  · unfold handleCd
    rw [if_neg (by decide : S "-" ≠ ([] : Str)), if_pos rfl]
    show cdGo dirOk ⟨B, none, h⟩ (S "-") A = _
    unfold cdGo
    rw [if_pos hA]
  · unfold handleCd
    rw [if_neg (by decide : S "-" ≠ ([] : Str)), if_pos rfl]
    show cdGo dirOk ⟨A, none, h⟩ (S "-") B = _
    unfold cdGo
    rw [if_pos hB]
  · intro st hst
    unfold handleCd
    rw [if_neg (by decide : S "-" ≠ ([] : Str)), if_pos rfl, hst]

/-- Concrete instance of the amended C1 round trip. -/
theorem c1_amended_witness :
    handleCd cdOkAB (some (S "/h")) ⟨S "/a", none, []⟩ (S "/b") =
      .handled ⟨S "/b", some (S "/a"), []⟩ [] :=
  (c1_amended cdOkAB (some (S "/h")) (S "/a") (S "/b") none []
    (by decide) (by decide) (by decide) (by decide) (by decide)).1

/-! ## Claim C2: history recording -/

/-- Claim C2, counterexample: "  ls  " is a non-blank submission (its trim is
"ls"), yet nothing is appended: history_ignore_space(true) makes the editor
drop every line whose first character is whitespace. -/
theorem c2_counterexample :
    rustTrim (S "  ls  ") = S "ls" ∧
    mainHistoryStep 100 [] (S "  ls  ") = [] := by
  refine ⟨?_, ?_⟩ <;> decide

/-- Claim C2 (amended): a whitespace-only line is never appended; a non-blank
line whose first character is not whitespace is appended raw, exactly once,
provided it differs from the most recent entry (consecutive-duplicate
suppression) and capacity is not reached; a non-blank line whose first
character IS whitespace is never appended (history_ignore_space); a line
equal to the most recent entry is never appended. -/
theorem c2_amended (maxLen : Nat) (hist : List Str) (line : Str) :
    (rustTrim line = [] → mainHistoryStep maxLen hist line = hist) ∧
    (∀ c rest, line = c :: rest → rustIsWs c = false →
      hist.getLast? ≠ some line → hist.length < maxLen →
      mainHistoryStep maxLen hist line = hist ++ [line]) ∧
    (∀ c rest, line = c :: rest → rustIsWs c = true →
      mainHistoryStep maxLen hist line = hist) ∧
    (hist.getLast? = some line →
      mainHistoryStep maxLen hist line = hist) := by
  refine ⟨?_, ?_, ?_, ?_⟩
  · intro h
    unfold mainHistoryStep
    rw [if_pos h]
  · intro c rest hline hc hlast hlen
    subst hline
    unfold mainHistoryStep
    rw [if_neg (rustTrim_ne_nil_of_head hc)]
    unfold add_history_entry
    rw [if_neg (by omega : ¬ maxLen = 0)]
    simp only [hc, if_neg, Bool.false_eq_true, if_false]
    rw [if_neg hlast, if_neg (by omega : ¬ hist.length = maxLen)]
  · intro c rest hline hc
    subst hline
    unfold mainHistoryStep
    by_cases ht : rustTrim (c :: rest) = []
    · rw [if_pos ht]
    · rw [if_neg ht]
      unfold add_history_entry
      by_cases hm : maxLen = 0
      · rw [if_pos hm]
      · rw [if_neg hm]
        simp only [hc, if_true]
  · intro hlast
    unfold mainHistoryStep
    by_cases ht : rustTrim line = []
    · rw [if_pos ht]
    · rw [if_neg ht]
      unfold add_history_entry
      by_cases hm : maxLen = 0
      · rw [if_pos hm]
      · rw [if_neg hm]
        cases line with
        | nil => rfl
        | cons c rest =>
          by_cases hc : rustIsWs c = true
          · simp only [hc, if_true]
          · simp only [hc, Bool.false_eq_true, if_false]
            rw [if_pos hlast]

/-- Concrete instance of the amended C2: a clean "ls" is appended raw. -/
theorem c2_amended_witness :
    mainHistoryStep 100 [] (S "ls") = [S "ls"] :=
  (c2_amended 100 [] (S "ls")).2.1 'l' ['s'] (by decide) (by decide)
    (by decide) (by decide)

/-! ## Claim C3: extension-based rewriting -/

/-- The "trailing token" in the words of the specification: the last
whitespace-delimited token of the line (defined only to compare the
specification's reading against what the code does). -/
def trailingTokenSpec (t : Str) : Str :=
  (t.reverse.takeWhile (fun c => !(rustIsWs c))).reverse

/-- An environment in which tokenization always fails, no file reads succeed,
and every spawn exits with status 0. -/
def c3env : SysEnv :=
  { split := fun _ => none, readFile := fun _ => none, dirOk := fun _ => false,
    home := none, isRoot := false, sudoAnswer := [],
    spawn := fun _ => some (some 0) }

/-- Claim C3, counterexample: for the dispatched line "bash myscript.sh" the
chmod request targets the WHOLE line taken as a path — the literal path
"bash myscript.sh" — not the file referenced by the trailing token
"myscript.sh" as the claim states. -/
theorem c3_counterexample :
    execute_command c3env [] 1 (S "bash myscript.sh") ⟨S "/", none, []⟩ =
      .done 0 ⟨S "/", none, []⟩
        [Effect.chmodReq (S "bash myscript.sh"),
         Effect.spawned (S "bash myscript.sh")] ∧
    trailingTokenSpec (S "bash myscript.sh") = S "myscript.sh" ∧
    S "bash myscript.sh" ≠ S "myscript.sh" := by
  refine ⟨?_, ?_, ?_⟩ <;> decide

/-- Claim C3 (amended): a dispatched line ending in ".sh" triggers
ensure_executable on the ENTIRE line as a path (and the line runs unchanged);
a line ending in ".hl" (and not ".sh") is rewritten to "hl run " ++ line; and
ensure_executable only ever adds permission bits to an existing file — it
never creates a file and never touches any other path. -/
theorem c3_amended (t : Str) (fs : FsPerm) (p q : Str) (m : Nat) :
    (strEnds t (S ".sh") = true → extensionStage t = (t, [Effect.chmodReq t])) ∧
    (strEnds t (S ".sh") = false → strEnds t (S ".hl") = true →
      extensionStage t = (S "hl run " ++ t, [])) ∧
    (fs p = some m → m &&& 0o111 = 0 → ensure_executable fs p p = some (m ||| 0o111)) ∧
    (fs p = some m → m &&& 0o111 ≠ 0 → ensure_executable fs p p = some m) ∧
    (fs p = none → ensure_executable fs p q = fs q) ∧
    (q ≠ p → ensure_executable fs p q = fs q) := by
  refine ⟨?_, ?_, ?_, ?_, ?_, ?_⟩
  · intro h
    unfold extensionStage
    rw [if_pos h]
  · intro h1 h2
    unfold extensionStage
    rw [if_neg (by simp [h1]), if_pos h2]
  · intro hp hm
    unfold ensure_executable
    rw [if_pos rfl, hp]
    simp [hm]
  · intro hp hm
    unfold ensure_executable
    rw [if_pos rfl, hp]
    simp [hm]
  · intro hp
    unfold ensure_executable
    by_cases hq : q = p
    · subst hq; rw [if_pos rfl, hp]
    · rw [if_neg hq]
  · intro hq
    unfold ensure_executable
    rw [if_neg hq]

/-- Concrete instance of the amended C3. -/
theorem c3_amended_witness :
    extensionStage (S "a.sh") = (S "a.sh", [Effect.chmodReq (S "a.sh")]) :=
  (c3_amended (S "a.sh") (fun _ => none) [] [] 0).1 (by decide)

/-! ## Claim C10: cd is matched by prefix -/

/-- Claim C10: any line whose trimmed form starts with the two characters
"cd" — "cdrom" and "cdecl args" included — is intercepted by the builtin
stage (with an empty alias table; an alias for the leading token would
rewrite the line first): the remainder after the "cd" prefix, trimmed, is
the cd target, the returned status is 0, and the only effects are printed
messages — the line is never delegated to the external interpreter. -/
theorem c10_cd_prefix (E : SysEnv) (fuel : Nat) (input : Str) (st : ShellSt)
    (hcd : strStarts (rustTrim input) (S "cd") = true) :
    ∃ st' msgs,
      handleCd E.dirOk E.home st (rustTrim ((rustTrim input).drop 2)) =
        .handled st' msgs ∧
      execute_command E [] (fuel+1) input st = .done 0 st' (msgs.map Effect.msg) := by
  obtain ⟨r, hr⟩ : ∃ r, rustTrim input = 'c' :: 'd' :: r := by
    obtain ⟨r, hr⟩ := strStarts_iff.mp hcd
    exact ⟨r, hr.symm⟩
  obtain ⟨st', msgs, hh⟩ :=
    handleCd_handled E.dirOk E.home st (rustTrim ((rustTrim input).drop 2))
  refine ⟨st', msgs, hh, ?_⟩
  have hsrc : strStarts (rustTrim input) (S "source ") = false := by rw [hr]; rfl
  have hdot : strStarts (rustTrim input) (S ". ") = false := by rw [hr]; rfl
  have hb : handle_builtin E.dirOk E.home st (rustTrim input) = .handled st' msgs := by
    simp only [handle_builtin, rustTrim_idem, hcd, if_true]
    exact hh
  rw [execute_command_succ]
  simp only [execStep, aliasExpand_nil, hsrc, hdot, hb]
  simp

/-- Concrete instance of C10: "cdrom" is treated as `cd rom` and returns 0
without spawning anything. -/
theorem c10_witness :
    execute_command c3env [] 1 (S "cdrom") ⟨S "/", none, []⟩ =
      .done 0 ⟨S "/", none, []⟩
        [Effect.msg (S "cd: no such file or directory: rom")] := by
  obtain ⟨st', msgs, hh, he⟩ :=
    c10_cd_prefix c3env 0 (S "cdrom") ⟨S "/", none, []⟩ (by decide)
  rw [he]
  have h2 : BuiltinOut.handled st' msgs =
      .handled ⟨S "/", none, []⟩ [S "cd: no such file or directory: rom"] := by
    rw [← hh]; decide
  injection h2 with h3 h4
  rw [h3, h4]
  rfl

/-! ## Claim C8: alias expansion -/

def wsTokensAux : Str → List Str
  | [] => [[]]
  | c :: t =>
    if rustIsWs c then [] :: wsTokensAux t
    else
      match wsTokensAux t with
      | [] => [[c]]
      | h :: r => (c :: h) :: r

/-- Whitespace tokenization: agrees with shlex::split on inputs free of
quotes, escapes and other shlex syntax; used to instantiate the split
oracle on such inputs. -/
def wsTokens (s : Str) : List Str := (wsTokensAux s).filter (fun l => !l.isEmpty)

/-- An alias table in which the replacement of "a" begins with "b", itself an
alias key. -/
def aliasesAB : List (Str × Str) := [(S "a", S "b x"), (S "b", S "c")]

/-- Environment with working (whitespace) tokenization. -/
def e8a : SysEnv :=
  { split := fun s => some (wsTokens s), readFile := fun _ => none,
    dirOk := fun _ => false, home := none, isRoot := false, sudoAnswer := [],
    spawn := fun _ => some (some 7) }

/-- Environment in which tokenization always fails (unbalanced quotes). -/
def e8b : SysEnv :=
  { split := fun _ => none, readFile := fun _ => none, dirOk := fun _ => false,
    home := none, isRoot := false, sudoAnswer := [],
    spawn := fun _ => some (some 3) }

/-- Claim C8: (1) when tokenization fails no expansion is performed and the
line is unchanged; (2) expansion replaces only the leading token, producing
the replacement text, a space, and the remaining tokens — it never consults
the table on the replacement; (3) concretely, under the table a -> "b x",
b -> "c", dispatching "a y" spawns "b x y" (the leading "b" of the
replacement is NOT re-expanded to "c"); (4) with failing tokenization the
original line `ec"ho` flows through the whole pipeline unchanged even though
the table is non-empty. -/
theorem c8_alias (split : Str → Option (List Str)) (A : List (Str × Str))
    (t p v : Str) (ps : List Str) :
    (split t = none → aliasExpand split A t = t) ∧
    (split t = some (p :: ps) → lookupA A p = some v →
      aliasExpand split A t = v ++ S " " ++ List.intercalate (S " ") ps) ∧
    execute_command e8a aliasesAB 1 (S "a y") ⟨S "/", none, []⟩ =
      .done 7 ⟨S "/", none, []⟩ [Effect.spawned (S "b x y")] ∧
    execute_command e8b aliasesAB 1 (S "ec\"ho") ⟨S "/", none, []⟩ =
      .done 3 ⟨S "/", none, []⟩ [Effect.spawned (S "ec\"ho")] := by
  refine ⟨?_, ?_, ?_, ?_⟩
  · intro h
    unfold aliasExpand
    rw [h]
    rfl
  · intro h1 h2
    unfold aliasExpand
    rw [h1]
    simp [h2]
  · decide
  · decide

/-- Concrete instance of the failed-tokenization branch of C8. -/
theorem c8_witness :
    aliasExpand (fun _ => none) aliasesAB (S "ls") = S "ls" :=
  (c8_alias (fun _ => none) aliasesAB (S "ls") [] [] []).1 rfl

/-! ## Claim C9: source/include semantics -/

theorem execute_source (E : SysEnv) (A : List (Str × Str)) (fuel : Nat)
    (input : Str) (st : ShellSt)
    (ha : aliasExpand E.split A (rustTrim input) = rustTrim input)
    (h1 : strStarts (rustTrim input) (S "source ") = true) :
    execute_command E A (fuel+1) input st =
      match E.readFile (expand_tilde E.home (rustTrim ((rustTrim input).drop 7))) with
      | none => .ioError []
      | some contents =>
        runLinesWith (fun l s => execute_command E A fuel l s)
          (rustLines contents) st 0 [] := by
  rw [execute_command_succ]
  simp only [execStep, ha, h1, if_true, true_or]

theorem execute_source_dot (E : SysEnv) (A : List (Str × Str)) (fuel : Nat)
    (input : Str) (st : ShellSt)
    (ha : aliasExpand E.split A (rustTrim input) = rustTrim input)
    (h1 : strStarts (rustTrim input) (S "source ") = false)
    (h2 : strStarts (rustTrim input) (S ". ") = true) :
    execute_command E A (fuel+1) input st =
      match E.readFile (expand_tilde E.home (rustTrim ((rustTrim input).drop 2))) with
      | none => .ioError []
      | some contents =>
        runLinesWith (fun l s => execute_command E A fuel l s)
          (rustLines contents) st 0 [] := by
  rw [execute_command_succ]
  simp only [execStep, ha, h1, h2, if_true, if_false, Bool.false_eq_true, false_or]

/-- A readable `source` line: the dispatch runs the file's lines. -/
theorem execute_source_run (E : SysEnv) (A : List (Str × Str)) (fuel : Nat)
    (input : Str) (st : ShellSt) (contents : Str)
    (ha : aliasExpand E.split A (rustTrim input) = rustTrim input)
    (h1 : strStarts (rustTrim input) (S "source ") = true)
    (hr : E.readFile (expand_tilde E.home (rustTrim ((rustTrim input).drop 7))) =
      some contents) :
    execute_command E A (fuel+1) input st =
      runLinesWith (fun l s => execute_command E A fuel l s)
        (rustLines contents) st 0 [] := by
  rw [execute_source E A fuel input st ha h1, hr]

/-- An unreadable `source` line: the dispatch aborts with an I/O failure. -/
theorem execute_source_err (E : SysEnv) (A : List (Str × Str)) (fuel : Nat)
    (input : Str) (st : ShellSt)
    (ha : aliasExpand E.split A (rustTrim input) = rustTrim input)
    (h1 : strStarts (rustTrim input) (S "source ") = true)
    (hr : E.readFile (expand_tilde E.home (rustTrim ((rustTrim input).drop 7))) =
      none) :
    execute_command E A (fuel+1) input st = .ioError [] := by
  rw [execute_source E A fuel input st ha h1, hr]

/-- A readable `. ` (dot-space) line. -/
theorem execute_source_dot_run (E : SysEnv) (A : List (Str × Str)) (fuel : Nat)
    (input : Str) (st : ShellSt) (contents : Str)
    (ha : aliasExpand E.split A (rustTrim input) = rustTrim input)
    (h1 : strStarts (rustTrim input) (S "source ") = false)
    (h2 : strStarts (rustTrim input) (S ". ") = true)
    (hr : E.readFile (expand_tilde E.home (rustTrim ((rustTrim input).drop 2))) =
      some contents) :
    execute_command E A (fuel+1) input st =
      runLinesWith (fun l s => execute_command E A fuel l s)
        (rustLines contents) st 0 [] := by
  rw [execute_source_dot E A fuel input st ha h1 h2, hr]

/-- A dispatch that reaches delegation: the line expands (stage 2) to t,
matches no source form and no builtin, passes the sudo stage as t2 with no
prompt, is no export, gains no extension rewriting, and spawns t2. -/
theorem execute_plain (E : SysEnv) (A : List (Str × Str)) (fuel : Nat)
    (input t t2 : Str) (st : ShellSt) (c : Option Int)
    (h0 : aliasExpand E.split A (rustTrim input) = t)
    (h1 : strStarts t (S "source ") = false)
    (h2 : strStarts t (S ". ") = false)
    (h3 : handle_builtin E.dirOk E.home st t = .notBuiltin)
    (h4 : check_auto_sudo E t = (t2, []))
    (h5 : strStarts t2 (S "export ") = false)
    (h6 : extensionStage t2 = (t2, []))
    (h7 : E.spawn t2 = some c) :
    execute_command E A (fuel+1) input st = .done (c.getD 1) st [Effect.spawned t2] := by
  rw [execute_command_succ]
  simp only [execStep, execTail, h0, h1, h2, h3, h4, h5, h6, h7]
  simp

/-- One eligible line of a sourced file that dispatches to done. -/
theorem runLines_cons_done (f : Str → ShellSt → ExecResult) (l : Str)
    (ls : List Str) (st st' : ShellSt) (last c : Int) (effs effs' : List Effect)
    (hel : rustTrim l ≠ [] ∧ strStarts (rustTrim l) (S "!") = false)
    (hf : f l st = .done c st' effs') :
    runLinesWith f (l :: ls) st last effs =
      runLinesWith f ls st' c (effs ++ effs') := by
  simp only [runLinesWith, if_pos hel, hf]

/-- A blank or '!'-prefixed line of a sourced file is skipped. -/
theorem runLines_cons_skip (f : Str → ShellSt → ExecResult) (l : Str)
    (ls : List Str) (st : ShellSt) (last : Int) (effs : List Effect)
    (hel : ¬(rustTrim l ≠ [] ∧ strStarts (rustTrim l) (S "!") = false)) :
    runLinesWith f (l :: ls) st last effs = runLinesWith f ls st last effs := by
  simp only [runLinesWith, if_neg hel]

/-- Environment for the source scenarios: tokenization returns the whole line
as a single token, HOME is /h, and reads and spawns are given oracles. -/
def mkSrcEnv (rf : Str → Option Str) (sp : Str → Option (Option Int)) : SysEnv :=
  { split := fun s => some [s], readFile := rf, dirOk := fun _ => false,
    home := some (S "/h"), isRoot := false, sudoAnswer := [], spawn := sp }

/-- Claim C9: for `source ~/f` (tilde-expanded to /h/f) and `. /h/f` over a
file with lines x1, x2, x3, the three lines are dispatched in order (the
spawn effects appear in file order), the returned status is that of the last
line, and the session state is threaded through; an unreadable file aborts
the dispatch with an I/O failure; a file with no eligible line (blank or
'!'-prefixed) returns status 0; and the same alias table is carried into the
recursive dispatches (x1 expands via the table while x2, x3 run as is). -/
theorem c9_source (rf rf2 rf3 : Str → Option Str) (sp : Str → Option (Option Int))
    (c1 c2 c3 c4 : Int) (st : ShellSt)
    (hrf : rf (S "/h/f") = some (S "x1\nx2\nx3"))
    (hs1 : sp (S "x1") = some (some c1))
    (hs2 : sp (S "x2") = some (some c2))
    (hs3 : sp (S "x3") = some (some c3))
    (hs4 : sp (S "y1") = some (some c4))
    (hrf2 : rf2 (S "/h/f") = none)
    (hrf3 : rf3 (S "/g") = some (S "\n!note\n   \n")) :
    execute_command (mkSrcEnv rf sp) [] 2 (S "source ~/f") st =
      .done c3 st [Effect.spawned (S "x1"), Effect.spawned (S "x2"),
        Effect.spawned (S "x3")] ∧
    execute_command (mkSrcEnv rf sp) [] 2 (S ". /h/f") st =
      .done c3 st [Effect.spawned (S "x1"), Effect.spawned (S "x2"),
        Effect.spawned (S "x3")] ∧
    execute_command (mkSrcEnv rf2 sp) [] 2 (S "source ~/f") st = .ioError [] ∧
    execute_command (mkSrcEnv rf3 sp) [] 2 (S "source /g") st = .done 0 st [] ∧
    execute_command (mkSrcEnv rf sp) [(S "x1", S "y1")] 2 (S "source ~/f") st =
      .done c3 st [Effect.spawned (S "y1"), Effect.spawned (S "x2"),
        Effect.spawned (S "x3")] := by
  have e1 : ∀ s : ShellSt, execute_command (mkSrcEnv rf sp) [] 1 (S "x1") s =
      .done c1 s [Effect.spawned (S "x1")] := by
    intro s
    rw [show (1 : Nat) = 0 + 1 from rfl]
    have := execute_plain (mkSrcEnv rf sp) [] 0 (S "x1") (S "x1") (S "x1") s
      (some c1) (aliasExpand_nil _ _) (by decide) (by decide) rfl rfl
      (by decide) (by decide) hs1
    simpa using this
  have e2 : ∀ s : ShellSt, execute_command (mkSrcEnv rf sp) [] 1 (S "x2") s =
      .done c2 s [Effect.spawned (S "x2")] := by
    intro s
    rw [show (1 : Nat) = 0 + 1 from rfl]
    have := execute_plain (mkSrcEnv rf sp) [] 0 (S "x2") (S "x2") (S "x2") s
      (some c2) (aliasExpand_nil _ _) (by decide) (by decide) rfl rfl
      (by decide) (by decide) hs2
    simpa using this
  have e3 : ∀ s : ShellSt, execute_command (mkSrcEnv rf sp) [] 1 (S "x3") s =
      .done c3 s [Effect.spawned (S "x3")] := by
    intro s
    rw [show (1 : Nat) = 0 + 1 from rfl]
    have := execute_plain (mkSrcEnv rf sp) [] 0 (S "x3") (S "x3") (S "x3") s
      (some c3) (aliasExpand_nil _ _) (by decide) (by decide) rfl rfl
      (by decide) (by decide) hs3
    simpa using this
  refine ⟨?_, ?_, ?_, ?_, ?_⟩
  · rw [show (2 : Nat) = 1 + 1 from rfl,
      execute_source_run _ _ _ _ _ _ (aliasExpand_nil _ _) (by decide) hrf]
    rw [show rustLines (S "x1\nx2\nx3") = [S "x1", S "x2", S "x3"] from by decide]
    rw [runLines_cons_done _ _ _ _ _ _ _ _ _ (by decide) (e1 st)]
    rw [runLines_cons_done _ _ _ _ _ _ _ _ _ (by decide) (e2 st)]
    rw [runLines_cons_done _ _ _ _ _ _ _ _ _ (by decide) (e3 st)]
    simp [runLinesWith]
  · rw [show (2 : Nat) = 1 + 1 from rfl,
      execute_source_dot_run _ _ _ _ _ _ (aliasExpand_nil _ _) (by decide)
        (by decide) hrf]
    rw [show rustLines (S "x1\nx2\nx3") = [S "x1", S "x2", S "x3"] from by decide]
    rw [runLines_cons_done _ _ _ _ _ _ _ _ _ (by decide) (e1 st)]
    rw [runLines_cons_done _ _ _ _ _ _ _ _ _ (by decide) (e2 st)]
    rw [runLines_cons_done _ _ _ _ _ _ _ _ _ (by decide) (e3 st)]
    simp [runLinesWith]
  · rw [show (2 : Nat) = 1 + 1 from rfl]
    exact execute_source_err _ _ _ _ _ (aliasExpand_nil _ _) (by decide) hrf2
  · rw [show (2 : Nat) = 1 + 1 from rfl,
      execute_source_run _ _ _ _ _ _ (aliasExpand_nil _ _) (by decide) hrf3]
    rw [show rustLines (S "\n!note\n   \n") = [[], S "!note", S "   "] from by decide]
    rw [runLines_cons_skip _ _ _ _ _ _ (by decide)]
    rw [runLines_cons_skip _ _ _ _ _ _ (by decide)]
    rw [runLines_cons_skip _ _ _ _ _ _ (by decide)]
    rfl
  · have eY : ∀ s : ShellSt,
        execute_command (mkSrcEnv rf sp) [(S "x1", S "y1")] 1 (S "x1") s =
          .done c4 s [Effect.spawned (S "y1")] := by
      intro s
      rw [show (1 : Nat) = 0 + 1 from rfl]
      have := execute_plain (mkSrcEnv rf sp) [(S "x1", S "y1")] 0 (S "x1")
        (S "y1 ") (S "y1") s (some c4)
        (show aliasExpand (fun q : Str => some [q]) [(S "x1", S "y1")]
          (rustTrim (S "x1")) = S "y1 " from by decide)
        (by decide) (by decide) rfl rfl (by decide) (by decide) hs4
      simpa using this
    have e2b : ∀ s : ShellSt,
        execute_command (mkSrcEnv rf sp) [(S "x1", S "y1")] 1 (S "x2") s =
          .done c2 s [Effect.spawned (S "x2")] := by
      intro s
      rw [show (1 : Nat) = 0 + 1 from rfl]
      have := execute_plain (mkSrcEnv rf sp) [(S "x1", S "y1")] 0 (S "x2")
        (S "x2") (S "x2") s (some c2)
        (show aliasExpand (fun q : Str => some [q]) [(S "x1", S "y1")]
          (rustTrim (S "x2")) = S "x2" from by decide)
        (by decide) (by decide) rfl rfl (by decide) (by decide) hs2
      simpa using this
    have e3b : ∀ s : ShellSt,
        execute_command (mkSrcEnv rf sp) [(S "x1", S "y1")] 1 (S "x3") s =
          .done c3 s [Effect.spawned (S "x3")] := by
      intro s
      rw [show (1 : Nat) = 0 + 1 from rfl]
      have := execute_plain (mkSrcEnv rf sp) [(S "x1", S "y1")] 0 (S "x3")
        (S "x3") (S "x3") s (some c3)
        (show aliasExpand (fun q : Str => some [q]) [(S "x1", S "y1")]
          (rustTrim (S "x3")) = S "x3" from by decide)
        (by decide) (by decide) rfl rfl (by decide) (by decide) hs3
      simpa using this
    rw [show (2 : Nat) = 1 + 1 from rfl,
      execute_source_run _ _ _ _ _ _
        (show aliasExpand (fun q : Str => some [q]) [(S "x1", S "y1")]
          (rustTrim (S "source ~/f")) = rustTrim (S "source ~/f") from by decide)
        (by decide) hrf]
    rw [show rustLines (S "x1\nx2\nx3") = [S "x1", S "x2", S "x3"] from by decide]
    rw [runLines_cons_done _ _ _ _ _ _ _ _ _ (by decide) (eY st)]
    rw [runLines_cons_done _ _ _ _ _ _ _ _ _ (by decide) (e2b st)]
    rw [runLines_cons_done _ _ _ _ _ _ _ _ _ (by decide) (e3b st)]
    simp [runLinesWith]

/-- Concrete instance of C9 with explicit oracles and statuses. -/
theorem c9_witness :
    execute_command
      (mkSrcEnv (fun q => if q = S "/h/f" then some (S "x1\nx2\nx3") else none)
        (fun q => if q = S "x1" then some (some 11)
          else if q = S "x2" then some (some 22)
          else if q = S "x3" then some (some 33)
          else if q = S "y1" then some (some 44) else none))
      [] 2 (S "source ~/f") ⟨S "/", none, []⟩ =
      .done 33 ⟨S "/", none, []⟩
        [Effect.spawned (S "x1"), Effect.spawned (S "x2"),
         Effect.spawned (S "x3")] :=
  (c9_source
    (fun q => if q = S "/h/f" then some (S "x1\nx2\nx3") else none)
    (fun q => if q = S "/h/f" then none else none)
    (fun q => if q = S "/g" then some (S "\n!note\n   \n") else none)
    (fun q => if q = S "x1" then some (some 11)
      else if q = S "x2" then some (some 22)
      else if q = S "x3" then some (some 33)
      else if q = S "y1" then some (some 44) else none)
    11 22 33 44 ⟨S "/", none, []⟩
    (by decide) (by decide) (by decide) (by decide) (by decide)
    (by decide) (by decide)).1

/-! ## Claim C4: totality of the classifier -/

/-- Claim C4 (refuted by the code): the classifier is NOT total.  On the
valid two-byte UTF-8 input consisting of the single character U+00A0
(no-break space, bytes 0xC2 0xA0) the word scan starts at byte 0xC2 (cast to
a char it is not whitespace, a quote, a dollar or an operator) and stops
before byte 0xA0 (cast to a char it IS whitespace), so the Rust code slices
&line[0..1] — and index 1 falls inside the two-byte character: the slice
panics.  This holds for every command/path oracle. -/
theorem c4_highlight_panics (ce pathish : List Nat → Bool) :
    highlight ce pathish [0xC2, 0xA0] = HRes.panicked := rfl

/-! ## Claim C7: dangerous-pattern override -/

/-- Claim C7: every line containing the literal byte sequence "rm -rf /" is
rendered as exactly one span covering the whole line, tagged warning, and no
other classification is performed (the result is that single span for every
command/path oracle). -/
theorem c7_dangerous_override (ce pathish : List Nat → Bool) (line : List Nat)
    (h : containsSeq line (B "rm -rf /") = true) :
    highlight ce pathish line = .ok [⟨0, line.length, .warning⟩] := by
  unfold highlight
  rw [if_pos]
  simp [dangerousPatterns, h]

/-- The everywhere-false oracle: an empty command registry and a filesystem
on which no path test succeeds. -/
def cFalse : List Nat → Bool := fun _ => false

/-- Concrete instance of C7. -/
theorem c7_witness :
    highlight cFalse cFalse (B "echo rm -rf / please") =
      .ok [⟨0, (B "echo rm -rf / please").length, .warning⟩] :=
  c7_dangerous_override cFalse cFalse (B "echo rm -rf / please") (by decide)

/-! ## Claim C5: span coverage -/

/-- Spans chain exactly from i to len: each span starts where the previous
stopped, is non-empty, and the last stops at len (this packages
non-overlapping, contiguity and full coverage). -/
def chainFrom (len : Nat) : Nat → List Span → Bool
  | i, [] => i == len
  | i, s :: r => s.start == i && (decide (i < s.stop) && chainFrom len s.stop r)

/-- The bytes under a span list, concatenated in order. -/
def spansText (line : List Nat) (spans : List Span) : List Nat :=
  (spans.map (fun s => (line.drop s.start).take (s.stop - s.start))).flatten

theorem takeCount_le (p : Nat → Bool) (l : List Nat) : takeCount p l ≤ l.length :=
  (List.takeWhile_sublist p).length_le

theorem takeCount_pos (p : Nat → Bool) (l : List Nat) (i : Nat) (hi : i < l.length)
    (hp : p (l.getD i 0) = true) : 1 ≤ takeCount p (l.drop i) := by
  unfold takeCount
  rw [List.drop_eq_getElem_cons hi, List.takeWhile_cons_of_pos]
  · simp
  · rwa [List.getD_eq_getElem l 0 hi] at hp

theorem chain_step (len i j : Nat) (cat : SpanCat) (rest : List Span)
    (hij : i < j) (hch : chainFrom len j rest = true) :
    chainFrom len i (⟨i, j, cat⟩ :: rest) = true := by
  simp [chainFrom, hij, hch]

theorem highlightLoop_chain (ce pathish : List Nat → Bool) (line : List Nat) :
    ∀ fuel i cmdPos spans, i ≤ line.length →
      highlightLoop ce pathish line fuel i cmdPos = .ok spans →
      chainFrom line.length i spans = true := by
  intro fuel
  induction fuel with
  | zero =>
    intro i cmdPos spans _ h
    simp [highlightLoop] at h
  | succ fuel ih =>
    intro i cmdPos spans hle h
    simp only [highlightLoop] at h
    by_cases hi : i < line.length
    · rw [if_pos hi] at h
      by_cases h1 : byteIsWhitespace (line.getD i 0) = true
      · rw [if_pos h1] at h
        obtain ⟨rest, hrec, hspans⟩ := consSpan_ok h
        subst hspans
        exact chain_step _ _ _ _ _ (by omega)
          (ih (i+1) cmdPos rest (by omega) hrec)
      · rw [if_neg h1] at h
        by_cases h2 : (line.getD i 0 == 0x22) = true
        · rw [if_pos h2] at h
          have hcnt : takeCount (fun x => !(x == 0x22)) (line.drop (i+1)) ≤
              line.length - (i+1) := by
            have := takeCount_le (fun x => !(x == 0x22)) (line.drop (i+1))
            simpa using this
          by_cases hlt : i + 1 + takeCount (fun x => !(x == 0x22)) (line.drop (i+1)) <
              line.length
          · rw [if_pos hlt] at h
            by_cases hsl : sliceOk line i
                (i + 1 + takeCount (fun x => !(x == 0x22)) (line.drop (i+1)) + 1) = true
            · rw [if_pos hsl] at h
              obtain ⟨rest, hrec, hspans⟩ := consSpan_ok h
              subst hspans
              exact chain_step _ _ _ _ _ (by omega) (ih _ false rest (by omega) hrec)
            · rw [if_neg hsl] at h
              simp at h
          · rw [if_neg hlt] at h
            by_cases hsl : sliceOk line i
                (i + 1 + takeCount (fun x => !(x == 0x22)) (line.drop (i+1))) = true
            · rw [if_pos hsl] at h
              obtain ⟨rest, hrec, hspans⟩ := consSpan_ok h
              subst hspans
              exact chain_step _ _ _ _ _ (by omega) (ih _ false rest (by omega) hrec)
            · rw [if_neg hsl] at h
              simp at h
        · rw [if_neg h2] at h
          by_cases h3 : (line.getD i 0 == 0x27) = true
          · rw [if_pos h3] at h
            have hcnt : takeCount (fun x => !(x == 0x27)) (line.drop (i+1)) ≤
                line.length - (i+1) := by
              have := takeCount_le (fun x => !(x == 0x27)) (line.drop (i+1))
              simpa using this
            by_cases hlt : i + 1 + takeCount (fun x => !(x == 0x27)) (line.drop (i+1)) <
                line.length
            · rw [if_pos hlt] at h
              by_cases hsl : sliceOk line i
                  (i + 1 + takeCount (fun x => !(x == 0x27)) (line.drop (i+1)) + 1) = true
              · rw [if_pos hsl] at h
                obtain ⟨rest, hrec, hspans⟩ := consSpan_ok h
                subst hspans
                exact chain_step _ _ _ _ _ (by omega) (ih _ false rest (by omega) hrec)
              · rw [if_neg hsl] at h
                simp at h
            · rw [if_neg hlt] at h
              by_cases hsl : sliceOk line i
                  (i + 1 + takeCount (fun x => !(x == 0x27)) (line.drop (i+1))) = true
              · rw [if_pos hsl] at h
                obtain ⟨rest, hrec, hspans⟩ := consSpan_ok h
                subst hspans
                exact chain_step _ _ _ _ _ (by omega) (ih _ false rest (by omega) hrec)
              · rw [if_neg hsl] at h
                simp at h
          · rw [if_neg h3] at h
            by_cases h4 : (line.getD i 0 == 0x24) = true
            · rw [if_pos h4] at h
              have hcnt : takeCount (fun x => byteIsAlnum x || x == 0x5F)
                  (line.drop (i+1)) ≤ line.length - (i+1) := by
                have := takeCount_le (fun x => byteIsAlnum x || x == 0x5F)
                  (line.drop (i+1))
                simpa using this
              by_cases hsl : sliceOk line i
                  (i + 1 + takeCount (fun x => byteIsAlnum x || x == 0x5F)
                    (line.drop (i+1))) = true
              · rw [if_pos hsl] at h
                obtain ⟨rest, hrec, hspans⟩ := consSpan_ok h
                subst hspans
                exact chain_step _ _ _ _ _ (by omega) (ih _ false rest (by omega) hrec)
              · rw [if_neg hsl] at h
                simp at h
            · rw [if_neg h4] at h
              by_cases h5 : isOpByte (line.getD i 0) = true
              · rw [if_pos h5] at h
                by_cases h6 : (decide (i + 1 < line.length) &&
                    ((line.getD i 0 == 0x26 && line.getD (i+1) 0 == 0x26) ||
                     (line.getD i 0 == 0x7C && line.getD (i+1) 0 == 0x7C))) = true
                · rw [if_pos h6] at h
                  simp only [Bool.and_eq_true, decide_eq_true_eq] at h6
                  by_cases hsl : sliceOk line i (i+2) = true
                  · rw [if_pos hsl] at h
                    obtain ⟨rest, hrec, hspans⟩ := consSpan_ok h
                    subst hspans
                    exact chain_step _ _ _ _ _ (by omega)
                      (ih _ true rest (by omega) hrec)
                  · rw [if_neg hsl] at h
                    simp at h
                · rw [if_neg h6] at h
                  by_cases hsl : sliceOk line i (i+1) = true
                  · rw [if_pos hsl] at h
                    obtain ⟨rest, hrec, hspans⟩ := consSpan_ok h
                    subst hspans
                    exact chain_step _ _ _ _ _ (by omega)
                      (ih _ true rest (by omega) hrec)
                  · rw [if_neg hsl] at h
                    simp at h
              · rw [if_neg h5] at h
                simp only [Bool.not_eq_true] at h1 h2 h3 h4 h5
                have hb : (fun x => !isWordBreak x) (line.getD i 0) = true := by
                  simp only [isWordBreak, h1, h2, h3, h4, h5, Bool.false_or,
                    Bool.or_false, Bool.or_self, Bool.not_false]
                have hn : 1 ≤ takeCount (fun x => !isWordBreak x) (line.drop i) :=
                  takeCount_pos _ line i hi hb
                have hn2 : takeCount (fun x => !isWordBreak x) (line.drop i) ≤
                    line.length - i := by
                  have := takeCount_le (fun x => !isWordBreak x) (line.drop i)
                  simpa using this
                by_cases hsl : sliceOk line i
                    (i + takeCount (fun x => !isWordBreak x) (line.drop i)) = true
                · rw [if_pos hsl] at h
                  obtain ⟨rest, hrec, hspans⟩ := consSpan_ok h
                  subst hspans
                  exact chain_step _ _ _ _ _ (by omega)
                    (ih _ false rest (by omega) hrec)
                · rw [if_neg hsl] at h
                  simp at h
    · rw [if_neg hi] at h
      injection h with h
      subst h
      simp only [chainFrom, beq_iff_eq]
      omega

theorem chainFrom_text (line : List Nat) :
    ∀ (spans : List Span) (i : Nat), chainFrom line.length i spans = true →
      spansText line spans = line.drop i := by
  intro spans
  induction spans with
  | nil =>
    intro i h
    simp only [chainFrom, beq_iff_eq] at h
    subst h
    simp [spansText]
  | cons s r ih =>
    intro i h
    simp only [chainFrom, Bool.and_eq_true, beq_iff_eq, decide_eq_true_eq] at h
    obtain ⟨hs, hlt, hc⟩ := h
    subst hs
    unfold spansText
    simp only [List.map_cons, List.flatten_cons]
    have hr : (List.map (fun sp => (line.drop sp.start).take (sp.stop - sp.start)) r).flatten
        = line.drop s.stop := ih s.stop hc
    rw [hr]
    have h1 : (line.drop s.start).drop (s.stop - s.start) = line.drop s.stop := by
      rw [List.drop_drop]
      congr 1
      omega
    rw [← h1, List.take_append_drop]

/-- Claim C5 (amended): whenever the classifier completes — it does not on
every input, see the counterexample — its spans chain gap-free and
overlap-free from 0 to the length of the line, and concatenating the bytes
under the spans in order reproduces the line exactly. -/
theorem c5_amended (ce pathish : List Nat → Bool) (line : List Nat)
    (spans : List Span) (h : highlight ce pathish line = .ok spans) :
    chainFrom line.length 0 spans = true ∧ spansText line spans = line := by
  have hch : chainFrom line.length 0 spans = true := by
    unfold highlight at h
    by_cases hd : dangerousPatterns.any (fun p => containsSeq line p) = true
    · rw [if_pos hd] at h
      injection h with h
      subst h
      cases line with
      | nil => exact absurd hd (by decide)
      | cons b t => simp [chainFrom]
    · rw [if_neg hd] at h
      exact highlightLoop_chain ce pathish line _ 0 true spans (Nat.zero_le _) h
  refine ⟨hch, ?_⟩
  rw [chainFrom_text line spans 0 hch]
  simp

/-- Claim C5, counterexample: on the single-character line U+00A0 (bytes
0xC2 0xA0) the classifier panics, so there is no span list at all — in
particular none whose union covers the line — and the claim's universal
statement fails (HRes.panicked is a different constructor from every
HRes.ok spans). -/
theorem c5_counterexample :
    highlight cFalse cFalse [0xC2, 0xA0] = HRes.panicked := rfl

/-- Concrete instance of the amended C5: the spans of "a b" chain over the
line and their bytes concatenate back to it. -/
theorem c5_witness :
    chainFrom (B "a b").length 0
      [⟨0, 1, .word .unknownCommand⟩, ⟨1, 2, .whitespace⟩,
       ⟨2, 3, .word .plainWord⟩] = true ∧
    spansText (B "a b")
      [⟨0, 1, .word .unknownCommand⟩, ⟨1, 2, .whitespace⟩,
       ⟨2, 3, .word .plainWord⟩] = B "a b" :=
  c5_amended cFalse cFalse (B "a b")
    [⟨0, 1, .word .unknownCommand⟩, ⟨1, 2, .whitespace⟩,
     ⟨2, 3, .word .plainWord⟩] (by decide)

/-! ## Claim C6: the command-position invariant -/

/-- Transition of the is_command_position flag over one produced span, read
off main.rs: whitespace leaves the flag unchanged, operators set it, every
other span (quotes, variables, words) clears it. -/
def spanFlag (pos : Bool) (s : Span) : Bool :=
  match s.cat with
  | .whitespace => pos
  | .op1 => true
  | .op2 => true
  | _ => false

/-- The flag value after scanning a list of spans starting from pos. -/
def flagAfter (pos : Bool) (l : List Span) : Bool := l.foldl spanFlag pos

theorem highlightLoop_cmdpos (ce pathish : List Nat → Bool) (line : List Nat) :
    ∀ fuel i cmdPos spans,
      highlightLoop ce pathish line fuel i cmdPos = .ok spans →
      ∀ pre s rest, spans = pre ++ s :: rest → flagAfter cmdPos pre = true →
        ∀ cls, s.cat = .word cls →
          cls = .knownCommand ∨ cls = .unknownCommand := by
  intro fuel
  induction fuel with
  | zero =>
    intro i cmdPos spans h
    simp [highlightLoop] at h
  | succ fuel ih =>
    intro i cmdPos spans h pre s rest hsp hflag cls hcat
    simp only [highlightLoop] at h
    by_cases hi : i < line.length
    · rw [if_pos hi] at h
      by_cases h1 : byteIsWhitespace (line.getD i 0) = true
      · rw [if_pos h1] at h
        obtain ⟨rest0, hrec, hspans⟩ := consSpan_ok h
        subst hspans
        cases pre with
        | nil =>
          simp only [List.nil_append] at hsp
          injection hsp with hse hre
          rw [← hse] at hcat
          simp at hcat
        | cons q pre' =>
          simp only [List.cons_append] at hsp
          injection hsp with hqe hre
          refine ih _ cmdPos rest0 hrec pre' s rest hre ?_ cls hcat
          rw [← hqe] at hflag
          simpa [flagAfter, spanFlag] using hflag
      · rw [if_neg h1] at h
        by_cases h2 : (line.getD i 0 == 0x22) = true
        · rw [if_pos h2] at h
          by_cases hlt : i + 1 + takeCount (fun x => !(x == 0x22)) (line.drop (i+1)) <
              line.length
          · rw [if_pos hlt] at h
            by_cases hsl : sliceOk line i
                (i + 1 + takeCount (fun x => !(x == 0x22)) (line.drop (i+1)) + 1) = true
            · rw [if_pos hsl] at h
              obtain ⟨rest0, hrec, hspans⟩ := consSpan_ok h
              subst hspans
              cases pre with
              | nil =>
                simp only [List.nil_append] at hsp
                injection hsp with hse hre
                rw [← hse] at hcat
                simp at hcat
              | cons q pre' =>
                simp only [List.cons_append] at hsp
                injection hsp with hqe hre
                refine ih _ false rest0 hrec pre' s rest hre ?_ cls hcat
                rw [← hqe] at hflag
                simpa [flagAfter, spanFlag] using hflag
            · rw [if_neg hsl] at h
              simp at h
          · rw [if_neg hlt] at h
            by_cases hsl : sliceOk line i
                (i + 1 + takeCount (fun x => !(x == 0x22)) (line.drop (i+1))) = true
            · rw [if_pos hsl] at h
              obtain ⟨rest0, hrec, hspans⟩ := consSpan_ok h
              subst hspans
              cases pre with
              | nil =>
                simp only [List.nil_append] at hsp
                injection hsp with hse hre
                rw [← hse] at hcat
                simp at hcat
              | cons q pre' =>
                simp only [List.cons_append] at hsp
                injection hsp with hqe hre
                refine ih _ false rest0 hrec pre' s rest hre ?_ cls hcat
                rw [← hqe] at hflag
                simpa [flagAfter, spanFlag] using hflag
            · rw [if_neg hsl] at h
              simp at h
        · rw [if_neg h2] at h
          by_cases h3 : (line.getD i 0 == 0x27) = true
          · rw [if_pos h3] at h
            by_cases hlt : i + 1 + takeCount (fun x => !(x == 0x27)) (line.drop (i+1)) <
                line.length
            · rw [if_pos hlt] at h
              by_cases hsl : sliceOk line i
                  (i + 1 + takeCount (fun x => !(x == 0x27)) (line.drop (i+1)) + 1) = true
              · rw [if_pos hsl] at h
                obtain ⟨rest0, hrec, hspans⟩ := consSpan_ok h
                subst hspans
                cases pre with
                | nil =>
                  simp only [List.nil_append] at hsp
                  injection hsp with hse hre
                  rw [← hse] at hcat
                  simp at hcat
                | cons q pre' =>
                  simp only [List.cons_append] at hsp
                  injection hsp with hqe hre
                  refine ih _ false rest0 hrec pre' s rest hre ?_ cls hcat
                  rw [← hqe] at hflag
                  simpa [flagAfter, spanFlag] using hflag
              · rw [if_neg hsl] at h
                simp at h
            · rw [if_neg hlt] at h
              by_cases hsl : sliceOk line i
                  (i + 1 + takeCount (fun x => !(x == 0x27)) (line.drop (i+1))) = true
              · rw [if_pos hsl] at h
                obtain ⟨rest0, hrec, hspans⟩ := consSpan_ok h
                subst hspans
                cases pre with
                | nil =>
                  simp only [List.nil_append] at hsp
                  injection hsp with hse hre
                  rw [← hse] at hcat
                  simp at hcat
                | cons q pre' =>
                  simp only [List.cons_append] at hsp
                  injection hsp with hqe hre
                  refine ih _ false rest0 hrec pre' s rest hre ?_ cls hcat
                  rw [← hqe] at hflag
                  simpa [flagAfter, spanFlag] using hflag
              · rw [if_neg hsl] at h
                simp at h
          · rw [if_neg h3] at h
            by_cases h4 : (line.getD i 0 == 0x24) = true
            · rw [if_pos h4] at h
              by_cases hsl : sliceOk line i
                  (i + 1 + takeCount (fun x => byteIsAlnum x || x == 0x5F)
                    (line.drop (i+1))) = true
              · rw [if_pos hsl] at h
                obtain ⟨rest0, hrec, hspans⟩ := consSpan_ok h
                subst hspans
                cases pre with
                | nil =>
                  simp only [List.nil_append] at hsp
                  injection hsp with hse hre
                  rw [← hse] at hcat
                  simp at hcat
                | cons q pre' =>
                  simp only [List.cons_append] at hsp
                  injection hsp with hqe hre
                  refine ih _ false rest0 hrec pre' s rest hre ?_ cls hcat
                  rw [← hqe] at hflag
                  simpa [flagAfter, spanFlag] using hflag
              · rw [if_neg hsl] at h
                simp at h
            · rw [if_neg h4] at h
              by_cases h5 : isOpByte (line.getD i 0) = true
              · rw [if_pos h5] at h
                by_cases h6 : (decide (i + 1 < line.length) &&
                    ((line.getD i 0 == 0x26 && line.getD (i+1) 0 == 0x26) ||
                     (line.getD i 0 == 0x7C && line.getD (i+1) 0 == 0x7C))) = true
                · rw [if_pos h6] at h
                  by_cases hsl : sliceOk line i (i+2) = true
                  · rw [if_pos hsl] at h
                    obtain ⟨rest0, hrec, hspans⟩ := consSpan_ok h
                    subst hspans
                    cases pre with
                    | nil =>
                      simp only [List.nil_append] at hsp
                      injection hsp with hse hre
                      rw [← hse] at hcat
                      simp at hcat
                    | cons q pre' =>
                      simp only [List.cons_append] at hsp
                      injection hsp with hqe hre
                      refine ih _ true rest0 hrec pre' s rest hre ?_ cls hcat
                      rw [← hqe] at hflag
                      simpa [flagAfter, spanFlag] using hflag
                  · rw [if_neg hsl] at h
                    simp at h
                · rw [if_neg h6] at h
                  by_cases hsl : sliceOk line i (i+1) = true
                  · rw [if_pos hsl] at h
                    obtain ⟨rest0, hrec, hspans⟩ := consSpan_ok h
                    subst hspans
                    cases pre with
                    | nil =>
                      simp only [List.nil_append] at hsp
                      injection hsp with hse hre
                      rw [← hse] at hcat
                      simp at hcat
                    | cons q pre' =>
                      simp only [List.cons_append] at hsp
                      injection hsp with hqe hre
                      refine ih _ true rest0 hrec pre' s rest hre ?_ cls hcat
                      rw [← hqe] at hflag
                      simpa [flagAfter, spanFlag] using hflag
                  · rw [if_neg hsl] at h
                    simp at h
              · rw [if_neg h5] at h
                by_cases hsl : sliceOk line i
                    (i + takeCount (fun x => !isWordBreak x) (line.drop i)) = true
                · rw [if_pos hsl] at h
                  by_cases hcp : cmdPos = true
                  · rw [if_pos hcp] at h
                    by_cases hce : ce ((line.drop i).take
                        (takeCount (fun x => !isWordBreak x) (line.drop i))) = true
                    · rw [if_pos hce] at h
                      obtain ⟨rest0, hrec, hspans⟩ := consSpan_ok h
                      subst hspans
                      cases pre with
                      | nil =>
                        simp only [List.nil_append] at hsp
                        injection hsp with hse hre
                        rw [← hse] at hcat
                        dsimp only at hcat
                        injection hcat with hcls
                        exact Or.inl hcls.symm
                      | cons q pre' =>
                        simp only [List.cons_append] at hsp
                        injection hsp with hqe hre
                        refine ih _ false rest0 hrec pre' s rest hre ?_ cls hcat
                        rw [← hqe] at hflag
                        simpa [flagAfter, spanFlag] using hflag
                    · rw [if_neg hce] at h
                      obtain ⟨rest0, hrec, hspans⟩ := consSpan_ok h
                      subst hspans
                      cases pre with
                      | nil =>
                        simp only [List.nil_append] at hsp
                        injection hsp with hse hre
                        rw [← hse] at hcat
                        dsimp only at hcat
                        injection hcat with hcls
                        exact Or.inr hcls.symm
                      | cons q pre' =>
                        simp only [List.cons_append] at hsp
                        injection hsp with hqe hre
                        refine ih _ false rest0 hrec pre' s rest hre ?_ cls hcat
                        rw [← hqe] at hflag
                        simpa [flagAfter, spanFlag] using hflag
                  · rw [if_neg hcp] at h
                    obtain ⟨rest0, hrec, hspans⟩ := consSpan_ok h
                    subst hspans
                    cases pre with
                    | nil =>
                      exact absurd (by simpa [flagAfter] using hflag) hcp
                    | cons q pre' =>
                      simp only [List.cons_append] at hsp
                      injection hsp with hqe hre
                      refine ih _ false rest0 hrec pre' s rest hre ?_ cls hcat
                      rw [← hqe] at hflag
                      simpa [flagAfter, spanFlag] using hflag
                · rw [if_neg hsl] at h
                  simp at h
    · rw [if_neg hi] at h
      injection h with h
      subst h
      simp at hsp

/-- Claim C6 (amended): in any completed classification, a Word span that is
preceded — since the start of the line or since the last operator span — by
whitespace spans only (formally: the command-position flag folded over the
spans before it from its initial value true is still true) is classified
KnownCommand or UnknownCommand.  As claimed, with an arbitrary non-Word span
(a quote or a variable) between the operator and the word, the invariant
fails: see the counterexample. -/
theorem c6_amended (ce pathish : List Nat → Bool) (line : List Nat)
    (spans pre : List Span) (s : Span) (rest : List Span) (cls : WordKind)
    (h : highlight ce pathish line = .ok spans) (hsp : spans = pre ++ s :: rest)
    (hflag : flagAfter true pre = true) (hcat : s.cat = .word cls) :
    cls = .knownCommand ∨ cls = .unknownCommand := by
  unfold highlight at h
  by_cases hd : dangerousPatterns.any (fun p => containsSeq line p) = true
  · rw [if_pos hd] at h
    injection h with h
    rw [← h] at hsp
    cases pre with
    | nil =>
      simp only [List.nil_append] at hsp
      injection hsp with hse hre
      rw [← hse] at hcat
      simp at hcat
    | cons q pre' =>
      simp only [List.cons_append] at hsp
      injection hsp with hqe hre
      exact absurd hre.symm (by simp)
  · rw [if_neg hd] at h
    exact highlightLoop_cmdpos ce pathish line _ 0 true spans h pre s rest hsp
      hflag cls hcat

/-- First Word span of a span list, when there is one. -/
def firstWordKind : List Span → Option WordKind
  | [] => none
  | s :: r =>
    match s.cat with
    | .word c => some c
    | _ => firstWordKind r

/-- Is an optional Word kind a command kind (vacuously yes when absent)? -/
def isCmdKind : Option WordKind → Bool
  | none => true
  | some .knownCommand => true
  | some .unknownCommand => true
  | some _ => false

/-- The check behind the first half of claim C6 on each suffix: after every
operator span, the first following Word span is a command kind. -/
def afterOpsCmdCheck : List Span → Bool
  | [] => true
  | s :: r =>
    (match s.cat with
     | .op1 => isCmdKind (firstWordKind r)
     | .op2 => isCmdKind (firstWordKind r)
     | _ => true) && afterOpsCmdCheck r

/-- The property claim C6 states, as a decidable check on a span list: the
first Word span following start-of-line, and the first Word span following
any operator span, is classified KnownCommand or UnknownCommand. -/
def firstWordCmdOk (spans : List Span) : Bool :=
  isCmdKind (firstWordKind spans) && afterOpsCmdCheck spans

/-- Claim C6, counterexample: on "a | 'b' c" the first Word span following
the operator span (the span of c, with only whitespace and a single-quoted
span in between) is classified PlainWord — the quoted span has already
cleared the command-position flag — so the claimed invariant is false as
stated. -/
theorem c6_counterexample :
    highlight cFalse cFalse (B "a | 'b' c") =
      .ok [⟨0, 1, .word .unknownCommand⟩, ⟨1, 2, .whitespace⟩, ⟨2, 3, .op1⟩,
        ⟨3, 4, .whitespace⟩, ⟨4, 7, .squoted⟩, ⟨7, 8, .whitespace⟩,
        ⟨8, 9, .word .plainWord⟩] ∧
    firstWordCmdOk [⟨0, 1, .word .unknownCommand⟩, ⟨1, 2, .whitespace⟩,
      ⟨2, 3, .op1⟩, ⟨3, 4, .whitespace⟩, ⟨4, 7, .squoted⟩, ⟨7, 8, .whitespace⟩,
      ⟨8, 9, .word .plainWord⟩] = false := by
  refine ⟨?_, ?_⟩ <;> decide

/-- Concrete instance of the amended C6: on "a ; b" the word after the
semicolon (whitespace in between) is a command kind. -/
theorem c6_witness :
    WordKind.unknownCommand = WordKind.knownCommand ∨
    WordKind.unknownCommand = WordKind.unknownCommand :=
  c6_amended cFalse cFalse (B "a ; b")
    [⟨0, 1, .word .unknownCommand⟩, ⟨1, 2, .whitespace⟩, ⟨2, 3, .op1⟩,
     ⟨3, 4, .whitespace⟩, ⟨4, 5, .word .unknownCommand⟩]
    [⟨0, 1, .word .unknownCommand⟩, ⟨1, 2, .whitespace⟩, ⟨2, 3, .op1⟩,
     ⟨3, 4, .whitespace⟩]
    ⟨4, 5, .word .unknownCommand⟩ [] .unknownCommand
    (by decide) (by decide) (by decide) (by decide)
